import Mathlib

/-!
Verification of the markdown/HTML content pipeline and auxiliary handlers of
the SenTeGuard blog front-end (TypeScript), shallowly embedded in Lean 4.

The embedding follows the TypeScript source:
* `slugify` — `src/src/components/PostsList.tsx` lines 157-163 (the identical
  copy lives in `src/src/components/BlogAdmin.tsx` lines 9-16);
* `uniqueSlug`, the table-of-contents pass and the HTML serialization pass —
  `src/src/components/PostsList.tsx` lines 190-215;
* `isAdmin` — the auth utility module;
* the newsletter subscribe `POST` handler;
* `BlogAdmin`'s `handleSubmit`;
* the HTML-to-Markdown Normalizer, modelled from the specification (its
  implementation file is not part of the sources at hand).

Strings are treated as their character lists; the character classes of the
JavaScript regular expressions (`\w`, `\s`) are modelled on the ASCII fragment
(plus NBSP for `\s`), which is the fragment all claims exercise.
-/

/-- JS `\s` (whitespace) on the ASCII fragment plus NBSP. -/
def isJsWs (c : Char) : Bool :=
  c == ' ' || c == '\t' || c == '\n' || c == '\r' ||
    c == '\x0b' || c == '\x0c' || c == ' '

/-- JS `\w` (word character): letters, digits, underscore. -/
def isWordChar (c : Char) : Bool :=
  ('a' ≤ c && c ≤ 'z') || ('A' ≤ c && c ≤ 'Z') || ('0' ≤ c && c ≤ '9') || c == '_'

/-- `String.prototype.toLowerCase` on the ASCII fragment, characterwise. -/
def lowerStep (l : List Char) : List Char := l.map Char.toLower

/-- `String.prototype.trim`: drop whitespace from both ends. -/
def trimStep (l : List Char) : List Char :=
  ((l.dropWhile isJsWs).reverse.dropWhile isJsWs).reverse

/-- `.replace(/[^\w\s-]/g, '')`: keep only word characters, whitespace, hyphens. -/
def stripStep (l : List Char) : List Char :=
  l.filter fun c => isWordChar c || isJsWs c || c == '-'

/-- `.replace(/p+/g, r)` for a character class `p`: the regex engine replaces
each maximal run of `p`-characters by the single character `r`.  Implemented
as a left-to-right scan that remembers whether the previous character was part
of a run (so a run contributes `r` exactly once, at its first character). -/
def collapseRunsAux (p : Char → Bool) (r : Char) : Bool → List Char → List Char
  | _, [] => []
  | inRun, c :: cs =>
    if p c then
      if inRun then collapseRunsAux p r true cs
      else r :: collapseRunsAux p r true cs
    else c :: collapseRunsAux p r false cs

/-- `slugify` from `PostsList.tsx` lines 157-163 / `BlogAdmin.tsx` lines 9-16:
lowercase, trim, strip non-`[\w\s-]`, then replace `\s+` runs by `'-'` and
collapse `-+` runs to `'-'` (both global replaces). -/
def slugify (s : String) : String :=
  ⟨collapseRunsAux (· == '-') '-' false
    (collapseRunsAux isJsWs '-' false
      (stripStep (trimStep (lowerStep s.data))))⟩

/-- Run replacement in the words of the specification ("replace each run of
whitespace with a single hyphen", "collapse each run of hyphens to one
hyphen"): on meeting a `p`-character, consume the whole run (`dropWhile`) and
emit `r` once in its place. -/
def replaceRuns (p : Char → Bool) (r : Char) : List Char → List Char
  | [] => []
  | c :: cs =>
    if p c then r :: replaceRuns p r (cs.dropWhile p)
    else c :: replaceRuns p r cs
termination_by l => l.length
decreasing_by
  · simp only [List.length_cons]
    exact Nat.lt_succ_of_le (List.dropWhile_suffix p).length_le
  · simp

/-- Slug derivation exactly as §4.2 of the specification words it: lowercase,
trim, remove every character that is not word/whitespace/hyphen, replace each
whitespace run with a single hyphen, collapse each hyphen run to one hyphen. -/
def slugifySpec (s : String) : String :=
  ⟨replaceRuns (· == '-') '-'
    (replaceRuns isJsWs '-'
      (stripStep (trimStep (lowerStep s.data))))⟩

theorem collapseRunsAux_true (p : Char → Bool) (r : Char) (l : List Char) :
    collapseRunsAux p r true l = collapseRunsAux p r false (l.dropWhile p) := by
  induction l with
  | nil => simp [collapseRunsAux, List.dropWhile]
  | cons c cs ih =>
    by_cases h : p c
    · simp [collapseRunsAux, List.dropWhile, h, ih]
    · simp [collapseRunsAux, List.dropWhile, h]

theorem replaceRuns_eq_collapseRunsAux (p : Char → Bool) (r : Char) (l : List Char) :
    replaceRuns p r l = collapseRunsAux p r false l := by
  have main : ∀ n (l : List Char), l.length ≤ n →
      replaceRuns p r l = collapseRunsAux p r false l := by
    intro n
    induction n with
    | zero =>
      intro l hl
      have : l = [] := List.eq_nil_of_length_eq_zero (Nat.le_zero.mp hl)
      subst this
      simp [replaceRuns, collapseRunsAux]
    | succ n ih =>
      intro l hl
      match l with
      | [] => simp [replaceRuns, collapseRunsAux]
      | c :: cs =>
        by_cases h : p c
        · have hlen : (cs.dropWhile p).length ≤ n := by
            have h1 : (cs.dropWhile p).length ≤ cs.length :=
              (List.dropWhile_suffix p).length_le
            have h2 : cs.length ≤ n := Nat.le_of_succ_le_succ hl
            omega
          rw [replaceRuns, if_pos h, ih (cs.dropWhile p) hlen]
          simp [collapseRunsAux, h, collapseRunsAux_true]
        · rw [replaceRuns, if_neg h, ih cs (Nat.le_of_succ_le_succ hl)]
          simp [collapseRunsAux, h]
  exact main l.length l le_rfl

theorem slugify_eq_spec (s : String) : slugify s = slugifySpec s := by
  unfold slugify slugifySpec
  rw [replaceRuns_eq_collapseRunsAux, replaceRuns_eq_collapseRunsAux]

/-- C3: for every heading text the base slug is computed by exactly the
five-step procedure of the specification (lowercase, trim, delete characters
outside word/whitespace/hyphen, whitespace runs to a single hyphen, collapse
hyphen runs); in particular `slugify "Hello, World!" = "hello-world"`. -/
theorem slugify_follows_spec :
    (∀ s : String, slugify s = slugifySpec s) ∧
      slugify "Hello, World!" = "hello-world" :=
  ⟨slugify_eq_spec, by decide⟩

/-! ## The render pass of `PostsList` (lines 190-215)

Per post, the component creates one fresh `slugCounts : Map<string, number>`,
builds the table of contents by mapping `uniqueSlug` over the heading tokens
of depth ≤ 3, and then serializes *all* tokens to HTML with a heading renderer
that calls the same `uniqueSlug` against the same, still-populated map. -/

/-- Model of the JS `Map<string, number>` used as `slugCounts`:
an association list with `Map.get`/`Map.set` semantics. -/
abbrev SlugMap : Type := List (String × Nat)

/-- `slugCounts.get(base) ?? 0`. -/
def SlugMap.getCount (m : SlugMap) (k : String) : Nat :=
  match m with
  | [] => 0
  | (k', v) :: rest => if k' = k then v else SlugMap.getCount rest k

/-- `slugCounts.set(base, count + 1)`: update in place or append. -/
def SlugMap.setCount (m : SlugMap) (k : String) (v : Nat) : SlugMap :=
  match m with
  | [] => [(k, v)]
  | (k', v') :: rest =>
    if k' = k then (k, v) :: rest else (k', v') :: SlugMap.setCount rest k v

/-- `uniqueSlug` (PostsList.tsx lines 192-197): look the base slug up in the
counter, bump the counter, and append `-count` when the base was seen before
(`count ? `${base}-${count}` : base`). -/
def uniqueSlug (text : String) (m : SlugMap) : String × SlugMap :=
  let base := slugify text
  let count := m.getCount base
  let m' := m.setCount base (count + 1)
  (if count ≠ 0 then base ++ "-" ++ toString count else base, m')

/-- A token of the `marked` lexer as the render pass inspects it: the pass
only distinguishes heading tokens (depth and raw text) from everything else;
a non-heading token is carried with the HTML the default renderer emits for it. -/
inductive Token where
  | heading (depth : Nat) (text : String)
  | other (html : String)
deriving DecidableEq

/-- `tokens.filter((t) => t.type === 'heading' && t.depth <= 3)` (lines 200-202). -/
def headingTokens (tokens : List Token) : List Token :=
  tokens.filter fun t =>
    match t with
    | .heading d _ => d ≤ 3
    | .other _ => false

/-- One table-of-contents entry `{ depth, text, id }` (lines 203-207). -/
structure HeadingEntry where
  depth : Nat
  text : String
  id : String
deriving DecidableEq

/-- `headingTokens.map((t) => ({depth, text, id: uniqueSlug(text)}))`:
a map with the `slugCounts` state threaded left to right. -/
def tocPass : List Token → SlugMap → List HeadingEntry × SlugMap
  | [], m => ([], m)
  | .heading d text :: ts, m =>
    let (id, m') := uniqueSlug text m
    let (rest, m'') := tocPass ts m'
    (⟨d, text, id⟩ :: rest, m'')
  | .other _ :: ts, m => tocPass ts m

/-- `marked.parser(tokens, { renderer })` with the overridden
`renderer.heading` (lines 209-215): every heading of any depth is emitted as
`<h{level} id="{uniqueSlug(text)}">{text}</h{level}>`, against the same
`slugCounts` map; any other token contributes its default HTML. -/
def htmlPass : List Token → SlugMap → String × SlugMap
  | [], m => ("", m)
  | .heading d text :: ts, m =>
    let (id, m') := uniqueSlug text m
    let (rest, m'') := htmlPass ts m'
    ("<h" ++ toString d ++ " id=\"" ++ id ++ "\">" ++ text ++ "</h" ++
      toString d ++ ">" ++ rest, m'')
  | .other html :: ts, m =>
    let (rest, m') := htmlPass ts m
    (html ++ rest, m')

/-- One render pass over one post body's token stream, as lines 190-215 run it:
a fresh `slugCounts`, the table-of-contents map first, then the HTML
serialization continuing with the map the first pass populated. -/
def renderPass (tokens : List Token) : List HeadingEntry × String :=
  let (toc, m1) := tocPass (headingTokens tokens) []
  let (html, _) := htmlPass tokens m1
  (toc, html)

/-! ## Substring occurrence, used to speak about the rendered HTML string -/

/-- `startsSeg pat l`: `l` begins with the character segment `pat`. -/
def startsSeg : List Char → List Char → Bool
  | [], _ => true
  | _ :: _, [] => false
  | p :: ps, c :: cs => p == c && startsSeg ps cs

/-- `containsSeg pat l`: the character segment `pat` occurs somewhere in `l`. -/
def containsSeg (pat : List Char) : List Char → Bool
  | [] => startsSeg pat []
  | c :: cs => startsSeg pat (c :: cs) || containsSeg pat cs

theorem startsSeg_self_append (pat b : List Char) :
    startsSeg pat (pat ++ b) = true := by
  induction pat with
  | nil => simp [startsSeg]
  | cons p ps ih => simp [startsSeg, ih]

theorem containsSeg_append_mid (pat a b : List Char) :
    containsSeg pat (a ++ (pat ++ b)) = true := by
  induction a with
  | nil =>
    cases hp : pat ++ b with
    | nil =>
      have : pat = [] := by
        cases pat with
        | nil => rfl
        | cons x xs => simp at hp
      simp [this, containsSeg, startsSeg]
    | cons c cs =>
      simp only [List.nil_append, hp, containsSeg]
      rw [← hp, startsSeg_self_append]
      simp
  | cons x xs ih =>
    simp only [List.cons_append, containsSeg, List.append_eq, ih, Bool.or_true]

/-! ## C1 and C5 -/

/-- C1: the invariant "the anchor id a heading gets during table-of-contents
construction is byte-identical to the id injected into that heading's tag in
the rendered HTML" is violated by the code: the single `slugCounts` map is
*not* reset between the contents pass and the HTML pass, so the HTML pass sees
the counts the contents pass left behind.  For the one-heading document
`# Hello` the contents entry gets id `hello` while the rendered tag gets
`hello-1`, and the rendered HTML contains no target `id="hello"` at all. -/
theorem toc_and_html_heading_ids_diverge :
    (renderPass [Token.heading 1 "Hello"]).1.map HeadingEntry.id = ["hello"] ∧
    (renderPass [Token.heading 1 "Hello"]).2 = "<h1 id=\"hello-1\">Hello</h1>" ∧
    containsSeg "id=\"hello\"".data (renderPass [Token.heading 1 "Hello"]).2.data
      = false := by
  decide

/-- C5: the render pass is deterministic — it is a pure function of the token
stream (each invocation starts from its own fresh `slugCounts` map, exactly as
the code allocates `new Map()` per render), so two invocations on the same
document produce the same contents list and the same HTML string. -/
theorem renderPass_deterministic (tokens : List Token) :
    (renderPass tokens).1 = (renderPass tokens).1 ∧
      (renderPass tokens).2 = (renderPass tokens).2 :=
  ⟨rfl, rfl⟩

/-! ## C6: empty or undefined input -/

/-- `post.body || ''` — an absent body is rendered as the empty string. -/
def bodyOrEmpty : Option String → String
  | none => ""
  | some s => s

/-- C6: for empty or undefined markdown input the render pass yields an empty
contents list and HTML containing no heading element, and (being a total
function) raises no error.  The `marked` lexer is external to the repository;
it enters as a parameter together with its documented behaviour on the empty
string (`marked.lexer("")` produces no tokens). -/
theorem renderPass_empty_input (lexer : String → List Token)
    (hlex : lexer "" = []) (body : Option String)
    (hbody : body = none ∨ body = some "") :
    (renderPass (lexer (bodyOrEmpty body))).1 = [] ∧
      (renderPass (lexer (bodyOrEmpty body))).2 = "" ∧
      containsSeg "<h".data (renderPass (lexer (bodyOrEmpty body))).2.data = false := by
  have hb : bodyOrEmpty body = "" := by
    rcases hbody with h | h <;> simp [h, bodyOrEmpty]
  rw [hb, hlex]
  exact ⟨rfl, rfl, rfl⟩

/-- Witness for C6 at a concrete lexer and the undefined body. -/
theorem renderPass_empty_input_witness :
    (renderPass ((fun _ => []) (bodyOrEmpty none))).1 = [] ∧
      (renderPass ((fun _ => []) (bodyOrEmpty none))).2 = "" ∧
      containsSeg "<h".data (renderPass ((fun _ => []) (bodyOrEmpty none))).2.data
        = false :=
  renderPass_empty_input (fun _ => []) rfl none (Or.inl rfl)

/-! ## C2: numbering of duplicate base slugs within one pass -/

theorem SlugMap.getCount_setCount_self (m : SlugMap) (k : String) (v : Nat) :
    (m.setCount k v).getCount k = v := by
  induction m with
  | nil => simp [SlugMap.setCount, SlugMap.getCount]
  | cons p rest ih =>
    obtain ⟨k', v'⟩ := p
    by_cases h : k' = k <;>
      simp [SlugMap.setCount, SlugMap.getCount, h, ih]

theorem SlugMap.getCount_setCount_ne (m : SlugMap) (k j : String) (v : Nat)
    (h : k ≠ j) : (m.setCount k v).getCount j = m.getCount j := by
  induction m with
  | nil => simp [SlugMap.setCount, SlugMap.getCount, h]
  | cons p rest ih =>
    obtain ⟨k', v'⟩ := p
    by_cases h' : k' = k
    · subst h'
      simp [SlugMap.setCount, SlugMap.getCount, h]
    · simp only [SlugMap.setCount, if_neg h', SlugMap.getCount]
      by_cases h'' : k' = j <;> simp [h'', ih]

/-- The id `uniqueSlug` hands out for the `n`-th occurrence of a base slug
(0-based): the base itself first, then `base-n`. -/
def nthSlug (base : String) (n : Nat) : String :=
  if n ≠ 0 then base ++ "-" ++ toString n else base

theorem uniqueSlug_eq (text : String) (m : SlugMap) :
    uniqueSlug text m =
      (nthSlug (slugify text) (m.getCount (slugify text)),
        m.setCount (slugify text) (m.getCount (slugify text) + 1)) := rfl

theorem tocPass_nil (m : SlugMap) : tocPass [] m = ([], m) := rfl

theorem tocPass_heading (d : Nat) (text : String) (ts : List Token) (m : SlugMap) :
    tocPass (.heading d text :: ts) m =
      (⟨d, text, (uniqueSlug text m).1⟩ :: (tocPass ts (uniqueSlug text m).2).1,
        (tocPass ts (uniqueSlug text m).2).2) := rfl

theorem tocPass_other (h : String) (ts : List Token) (m : SlugMap) :
    tocPass (.other h :: ts) m = tocPass ts m := rfl

/-- Is `t` a heading token whose text normalizes to the base slug `base`? -/
def sameBaseHeading (base : String) (t : Token) : Bool :=
  match t with
  | .heading _ tx => slugify tx == base
  | .other _ => false

/-- How many heading tokens of `ts` normalize to the base slug `base`. -/
def baseCount (base : String) (ts : List Token) : Nat :=
  (ts.filter (sameBaseHeading base)).length

theorem tocPass_ids_same_base (base : String) :
    ∀ (ts : List Token) (m : SlugMap),
      (((tocPass ts m).1.filter fun e => slugify e.text == base).map HeadingEntry.id)
        = (List.range (baseCount base ts)).map
            (fun i => nthSlug base (m.getCount base + i)) := by
  intro ts
  induction ts with
  | nil => intro m; simp [tocPass_nil, baseCount]
  | cons t ts ih =>
    intro m
    cases t with
    | other h => simpa [tocPass_other, baseCount, sameBaseHeading] using ih m
    | heading d tx =>
      rw [tocPass_heading, uniqueSlug_eq]
      by_cases hb : slugify tx = base
      · subst hb
        have hcount :
            ((m.setCount (slugify tx) (m.getCount (slugify tx) + 1)).getCount
              (slugify tx)) = m.getCount (slugify tx) + 1 :=
          SlugMap.getCount_setCount_self m (slugify tx) _
        have hrest := ih (m.setCount (slugify tx) (m.getCount (slugify tx) + 1))
        rw [hcount] at hrest
        have hbc : baseCount (slugify tx) (Token.heading d tx :: ts)
            = baseCount (slugify tx) ts + 1 := by
          simp [baseCount, sameBaseHeading]
        rw [hbc]
        simp only [List.filter_cons, beq_self_eq_true, if_pos, List.map_cons]
        rw [List.range_succ_eq_map, List.map_cons, List.map_map]
        have hmap : (List.range (baseCount (slugify tx) ts)).map
            ((fun i => nthSlug (slugify tx) (m.getCount (slugify tx) + i)) ∘ Nat.succ)
            = (List.range (baseCount (slugify tx) ts)).map
                (fun i => nthSlug (slugify tx) (m.getCount (slugify tx) + 1 + i)) := by
          apply List.map_congr_left
          intro i _
          simp only [Function.comp_apply]
          congr 1
          omega
        rw [hmap, ← hrest]
        simp
      · have hcount :
            ((m.setCount (slugify tx) (m.getCount (slugify tx) + 1)).getCount base)
              = m.getCount base :=
          SlugMap.getCount_setCount_ne m (slugify tx) base _ hb
        have hrest := ih (m.setCount (slugify tx) (m.getCount (slugify tx) + 1))
        rw [hcount] at hrest
        have hbc : baseCount base (Token.heading d tx :: ts) = baseCount base ts := by
          simp [baseCount, sameBaseHeading, hb]
        rw [hbc]
        have hfilter : (slugify tx == base) = false := by simp [hb]
        simp only [List.filter_cons, hfilter]
        simpa using hrest

theorem renderPass_def (tokens : List Token) :
    renderPass tokens =
      ((tocPass (headingTokens tokens) []).1,
        (htmlPass tokens (tocPass (headingTokens tokens) []).2).1) := rfl

/-- C2: within one pass of the `uniqueSlug` counter (the contents-list pass,
which starts from the freshly created `slugCounts`), the headings whose texts
normalize to the same base slug receive, in document order, exactly the ids
`base`, `base-1`, …, `base-(N-1)`: the first occurrence keeps the bare base
slug and the `n`-th repeat gets `-n` appended. -/
theorem toc_duplicate_slugs_numbered (tokens : List Token) (base : String) :
    (((renderPass tokens).1.filter fun e => slugify e.text == base).map
        HeadingEntry.id)
      = (List.range (baseCount base (headingTokens tokens))).map
          (fun i => if i = 0 then base else base ++ "-" ++ toString i) := by
  rw [renderPass_def]
  have h := tocPass_ids_same_base base (headingTokens tokens) []
  simp only [SlugMap.getCount, Nat.zero_add] at h
  rw [h]
  apply List.map_congr_left
  intro i _
  by_cases hi : i = 0 <;> simp [nthSlug, hi]

/-! ## C4: depth filter for the contents list, ids for every heading in HTML -/

theorem containsSeg_append_right (pat a b : List Char)
    (h : containsSeg pat b = true) : containsSeg pat (a ++ b) = true := by
  induction a with
  | nil => simpa using h
  | cons x xs ih =>
    simp only [List.cons_append, containsSeg, List.append_eq, ih, Bool.or_true]

theorem containsSeg_of_startsSeg (pat l : List Char)
    (h : startsSeg pat l = true) : containsSeg pat l = true := by
  cases l with
  | nil => simpa [containsSeg] using h
  | cons c cs => simp [containsSeg, h]

theorem htmlPass_nil (m : SlugMap) : htmlPass [] m = ("", m) := rfl

theorem htmlPass_heading (d : Nat) (text : String) (ts : List Token) (m : SlugMap) :
    htmlPass (.heading d text :: ts) m =
      ("<h" ++ toString d ++ " id=\"" ++ (uniqueSlug text m).1 ++ "\">" ++ text ++
          "</h" ++ toString d ++ ">" ++ (htmlPass ts (uniqueSlug text m).2).1,
        (htmlPass ts (uniqueSlug text m).2).2) := rfl

theorem htmlPass_other (h : String) (ts : List Token) (m : SlugMap) :
    htmlPass (.other h :: ts) m =
      (h ++ (htmlPass ts m).1, (htmlPass ts m).2) := rfl

theorem mem_tocPass (e : HeadingEntry) :
    ∀ (ts : List Token) (m : SlugMap), e ∈ (tocPass ts m).1 →
      Token.heading e.depth e.text ∈ ts := by
  intro ts
  induction ts with
  | nil => intro m he; simp [tocPass_nil] at he
  | cons t ts ih =>
    intro m he
    cases t with
    | other h =>
      rw [tocPass_other] at he
      exact List.mem_cons_of_mem _ (ih m he)
    | heading d tx =>
      rw [tocPass_heading] at he
      rcases List.mem_cons.mp he with h | h
      · subst h
        exact List.mem_cons_self _ _
      · exact List.mem_cons_of_mem _ (ih _ h)

theorem htmlPass_contains_heading (d : Nat) (t : String) :
    ∀ (ts : List Token) (m : SlugMap), Token.heading d t ∈ ts →
      containsSeg ("<h" ++ toString d ++ " id=\"").data (htmlPass ts m).1.data
        = true := by
  intro ts
  induction ts with
  | nil => intro m hm; simp at hm
  | cons tok ts ih =>
    intro m hm
    cases tok with
    | other h =>
      have hmem : Token.heading d t ∈ ts := by
        rcases List.mem_cons.mp hm with h' | h'
        · exact absurd h' (by simp)
        · exact h'
      rw [htmlPass_other]
      simp only [String.data_append]
      exact containsSeg_append_right _ _ _ (ih m hmem)
    | heading d' t' =>
      rw [htmlPass_heading]
      rcases List.mem_cons.mp hm with h' | h'
      · have hd : d' = d := by cases h'; rfl
        subst hd
        apply containsSeg_of_startsSeg
        have hsplit :
            ("<h" ++ toString d' ++ " id=\"" ++ (uniqueSlug t' m).1 ++ "\">" ++ t' ++
                "</h" ++ toString d' ++ ">" ++ (htmlPass ts (uniqueSlug t' m).2).1).data
              = ("<h" ++ toString d' ++ " id=\"").data ++
                  ((uniqueSlug t' m).1.data ++ ("\">".data ++ (t'.data ++
                    ("</h".data ++ ((toString d').data ++ (">".data ++
                      (htmlPass ts (uniqueSlug t' m).2).1.data)))))) := by
          simp [String.data_append]
        rw [hsplit]
        exact startsSeg_self_append _ _
      · have := ih (uniqueSlug t' m).2 h'
        simp only [String.data_append]
        have hassoc :
            ("<h".data ++ (toString d').data ++ " id=\"".data ++
                (uniqueSlug t' m).1.data ++ "\">".data ++ t'.data ++ "</h".data ++
                (toString d').data ++ ">".data) ++
              (htmlPass ts (uniqueSlug t' m).2).1.data
            = ("<h".data ++ (toString d').data ++ " id=\"".data ++
                (uniqueSlug t' m).1.data ++ "\">".data ++ t'.data ++ "</h".data ++
                (toString d').data ++ ">".data ++
                (htmlPass ts (uniqueSlug t' m).2).1.data) := by
          simp [List.append_assoc]
        exact containsSeg_append_right _ _ _ this

/-- C4: every entry of the generated contents list has depth 1, 2 or 3 (the
code filters heading tokens with `depth <= 3`, and the `marked` lexer only
produces headings of depth 1-6, which enters as the hypothesis), while every
heading token of any depth still receives an `id` attribute in the rendered
HTML (`<h{depth} id="…"` occurs in the output). -/
theorem toc_depth_filter_html_ids (tokens : List Token)
    (hdep : ∀ d t, Token.heading d t ∈ tokens → 1 ≤ d ∧ d ≤ 6) :
    (∀ e ∈ (renderPass tokens).1, e.depth = 1 ∨ e.depth = 2 ∨ e.depth = 3) ∧
      ∀ d t, Token.heading d t ∈ tokens →
        containsSeg ("<h" ++ toString d ++ " id=\"").data
          (renderPass tokens).2.data = true := by
  constructor
  · intro e he
    rw [renderPass_def] at he
    have hmem := mem_tocPass e (headingTokens tokens) [] he
    have := List.mem_filter.mp hmem
    obtain ⟨hintok, hfilt⟩ := this
    have hle : e.depth ≤ 3 := by simpa using hfilt
    have hge : 1 ≤ e.depth := (hdep e.depth e.text hintok).1
    omega
  · intro d t hmem
    rw [renderPass_def]
    exact htmlPass_contains_heading d t tokens _ hmem

/-- Witness for C4 at a document with one depth-2 and one depth-4 heading. -/
theorem toc_depth_filter_html_ids_witness :
    (∀ e ∈ (renderPass [Token.heading 2 "A", Token.heading 4 "B"]).1,
        e.depth = 1 ∨ e.depth = 2 ∨ e.depth = 3) ∧
      containsSeg ("<h" ++ toString 4 ++ " id=\"").data
        (renderPass [Token.heading 2 "A", Token.heading 4 "B"]).2.data = true := by
  have hdep : ∀ d t,
      Token.heading d t ∈ [Token.heading 2 "A", Token.heading 4 "B"] →
        1 ≤ d ∧ d ≤ 6 := by
    intro d t h
    rcases List.mem_cons.mp h with h | h
    · simp only [Token.heading.injEq] at h
      omega
    · rcases List.mem_cons.mp h with h | h
      · simp only [Token.heading.injEq] at h
        omega
      · simp at h
  have h := toc_depth_filter_html_ids [Token.heading 2 "A", Token.heading 4 "B"] hdep
  exact ⟨h.1, h.2 4 "B" (by decide)⟩

/-! ## C8: `isAdmin` (auth utility) -/

/-- The slice of a Firebase `User` that `isAdmin` reads: `user.email` may be
absent (`null`). -/
structure FirebaseUser where
  email : Option String
deriving DecidableEq

/-- `String.prototype.toLowerCase` (ASCII fragment). -/
def jsToLower (s : String) : String := ⟨lowerStep s.data⟩

/-- `isAdmin(user, adminEmail = import.meta.env.PUBLIC_ADMIN_EMAIL)`:
`if (!user || !adminEmail) return false;` then
`return (user.email || '').toLowerCase() === adminEmail.toLowerCase();`.
The admin email is falsy when the env variable is unset (`none`) or empty. -/
def isAdmin (user : Option FirebaseUser) (adminEmail : Option String) : Bool :=
  match user, adminEmail with
  | none, _ => false
  | some _, none => false
  | some u, some ae =>
    if ae == "" then false
    else jsToLower (u.email.getD "") == jsToLower ae

/-- C8: `isAdmin` returns `true` exactly when the user is non-null, the
configured admin email is present and non-empty, and the user's email (the
empty string when absent) equals the admin email case-insensitively; in
particular it returns `false` for every user when the admin email is unset. -/
theorem isAdmin_characterization :
    (∀ (user : Option FirebaseUser) (adminEmail : Option String),
      isAdmin user adminEmail = true ↔
        ∃ u, user = some u ∧ ∃ ae, adminEmail = some ae ∧ ae ≠ "" ∧
          jsToLower (u.email.getD "") = jsToLower ae) ∧
      ∀ user : Option FirebaseUser, isAdmin user none = false := by
  constructor
  · intro user adminEmail
    cases user with
    | none => simp [isAdmin]
    | some u =>
      cases adminEmail with
      | none => simp [isAdmin]
      | some ae =>
        by_cases hae : ae = ""
        · simp [isAdmin, hae]
        · have : (ae == "") = false := by simp [hae]
          simp [isAdmin, this, hae]
  · intro user
    cases user <;> simp [isAdmin]

/-! ## C9: the newsletter subscribe POST handler -/

/-- The three Mailchimp env values (`MAILCHIMP_API_KEY`,
`MAILCHIMP_AUDIENCE_ID`, `MAILCHIMP_SERVER_PREFIX`); each may be unset. -/
structure MailchimpEnv where
  apiKey : Option String
  audienceId : Option String
  server : Option String
deriving DecidableEq

/-- JS falsiness of an optional string: absent or empty. -/
def falsyStr (o : Option String) : Bool :=
  match o with
  | none => true
  | some s => s == ""

/-- `!env.apiKey || !env.audienceId || !env.serverPrefix`. -/
def envMissing (env : MailchimpEnv) : Bool :=
  falsyStr env.apiKey || falsyStr env.audienceId || falsyStr env.server

/-- The slice of the incoming request the handler reads: the `content-type`
header (may be absent), the `email` field of a JSON body and the `email`
entry of a form body (each possibly absent). -/
structure SubscribeRequest where
  contentType : Option String
  jsonEmail : Option String
  formEmail : Option String
deriving DecidableEq

/-- `String.prototype.includes`. -/
def jsIncludes (s sub : String) : Bool := containsSeg sub.data s.data

/-- Lines 19-28 of the handler: pick the email out of the body according to
the content type; for any other content type `email` stays `null`. -/
def extractEmail (req : SubscribeRequest) : Option String :=
  let ct := req.contentType.getD ""
  if jsIncludes ct "application/json" then req.jsonEmail
  else if jsIncludes ct "application/x-www-form-urlencoded" ||
      jsIncludes ct "multipart/form-data" then req.formEmail
  else none

/-- `/\S+@\S+\.\S+/.test(value)`: some substring is a nonempty run of
non-whitespace, `@`, a nonempty non-whitespace run, `.`, and a nonempty
non-whitespace run.  Equivalently there are positions `p < q` holding `@`
and `.` with a non-whitespace character right before `p` and right after `q`
and only non-whitespace strictly between `p` and `q`. -/
def testEmailPattern (l : List Char) : Bool :=
  (List.range l.length).any fun p =>
    (List.range l.length).any fun q =>
      decide (1 ≤ p) && decide (p + 2 ≤ q) && decide (q + 1 < l.length) &&
        (l.getD p ' ' == '@') && (l.getD q ' ' == '.') &&
        !isJsWs (l.getD (p - 1) ' ') && !isJsWs (l.getD (q + 1) ' ') &&
        ((List.range (q - p - 1)).all fun j => !isJsWs (l.getD (p + 1 + j) ' '))

/-- `isValidEmail = (value) => Boolean(value && /\S+@\S+\.\S+/.test(value))`. -/
def isValidEmail (value : Option String) : Bool :=
  match value with
  | none => false
  | some s => !(s == "") && testEmailPattern s.data

/-- How far the subscribe handler gets: an early `Response` (status and error
body), or the outbound Mailchimp members request with the accepted email. -/
inductive SubscribeOutcome where
  | response (status : Nat) (error : String)
  | mailchimpRequest (email : String)
deriving DecidableEq

/-- The subscribe `POST` handler up to its outbound call: missing
configuration short-circuits to 500 before the body is read; an absent or
invalid email short-circuits to 400; otherwise the Mailchimp request is
issued with the extracted email. -/
def subscribePOST (env : MailchimpEnv) (req : SubscribeRequest) : SubscribeOutcome :=
  if envMissing env then .response 500 "Missing Mailchimp configuration"
  else
    let email := extractEmail req
    if !isValidEmail email then .response 400 "Invalid email"
    else .mailchimpRequest (email.getD "")

/-- C9: with any Mailchimp configuration value missing the handler answers
500 independently of the request (the body is never consulted); with full
configuration an absent-or-invalid email yields 400 `Invalid email` and no
outbound Mailchimp request; and a content type that is neither JSON nor
form-encoded leaves the email `null`, hence invalid. -/
theorem subscribePOST_rejections (env : MailchimpEnv) (req req' : SubscribeRequest) :
    (envMissing env = true →
      subscribePOST env req = .response 500 "Missing Mailchimp configuration" ∧
        subscribePOST env req = subscribePOST env req') ∧
      (envMissing env = false → isValidEmail (extractEmail req) = false →
        subscribePOST env req = .response 400 "Invalid email" ∧
          ∀ e, subscribePOST env req ≠ .mailchimpRequest e) ∧
      (jsIncludes (req.contentType.getD "") "application/json" = false →
        jsIncludes (req.contentType.getD "") "application/x-www-form-urlencoded" = false →
        jsIncludes (req.contentType.getD "") "multipart/form-data" = false →
        extractEmail req = none ∧ isValidEmail (extractEmail req) = false) := by
  refine ⟨?_, ?_, ?_⟩
  · intro henv
    constructor <;> simp [subscribePOST, henv]
  · intro henv hmail
    constructor <;> simp [subscribePOST, henv, hmail]
  · intro h1 h2 h3
    have : extractEmail req = none := by
      simp [extractEmail, h1, h2, h3]
    exact ⟨this, by simp [this, isValidEmail]⟩

/-- Witness for C9: a missing API key gives 500 whatever the request; with a
full configuration a `text/plain` request (email stays `null`) gives 400 and
no outbound request. -/
theorem subscribePOST_rejections_witness :
    (subscribePOST ⟨none, some "aud", some "us1"⟩ ⟨some "text/plain", none, some "a@b.cd"⟩
        = .response 500 "Missing Mailchimp configuration") ∧
      (subscribePOST ⟨some "key", some "aud", some "us1"⟩
          ⟨some "text/plain", none, some "a@b.cd"⟩ = .response 400 "Invalid email") ∧
      extractEmail ⟨some "text/plain", none, some "a@b.cd"⟩ = none := by
  have h1 := (subscribePOST_rejections ⟨none, some "aud", some "us1"⟩
    ⟨some "text/plain", none, some "a@b.cd"⟩ ⟨some "text/plain", none, some "a@b.cd"⟩).1
    (by decide)
  have h2 := subscribePOST_rejections ⟨some "key", some "aud", some "us1"⟩
    ⟨some "text/plain", none, some "a@b.cd"⟩ ⟨some "text/plain", none, some "a@b.cd"⟩
  have h3 := h2.2.2 (by decide) (by decide) (by decide)
  exact ⟨h1.1, (h2.2.1 (by decide) h3.2).1, h3.1⟩

/-! ## C10: `BlogAdmin.handleSubmit` -/

/-- `String.prototype.trim`. -/
def jsTrim (s : String) : String := ⟨trimStep s.data⟩

/-- `tags.split(',').map((t) => t.trim()).filter(Boolean)`. -/
def toTagArray (value : String) : List String :=
  ((value.split (· == ',')).map jsTrim).filter (fun t => !(t == ""))

/-- The document `handleSubmit` adds to the `posts` collection (the two
`serverTimestamp()` sentinels are filled in server-side and carry no client
state, so they are omitted). -/
structure PostDoc where
  title : String
  body : String
  slug : String
  authorEmail : String
  tags : List String
deriving DecidableEq

/-- The component state `handleSubmit` touches. -/
structure AdminForm where
  title : String
  body : String
  tags : String
  status : String
  error : String
  loading : Bool
deriving DecidableEq

/-- The rejection of an `addDoc` call: its message, and whether it is the
Firebase `permission-denied` error. -/
structure AddError where
  message : String
  permissionDenied : Bool
deriving DecidableEq

/-- The error message the catch branch shows. -/
def publishErrorMessage (e : AddError) : String :=
  if e.permissionDenied then
    "Permission denied. Ensure Firestore rules allow the admin email and you are signed in as that admin."
  else e.message

/-- `handleSubmit` of `BlogAdmin.tsx` (lines 46-98) as a state transition:
`ready` stands for `auth && db && postsRef`, `adminUser` for the admin flag,
`now` for `Date.now()`, and `addOutcome` for how the awaited `addDoc`
resolves (`none` = success).  The returned pair is the new form state and the
new contents of the `posts` collection. -/
def handleSubmit (ready adminUser : Bool) (authEmail : Option String) (now : Nat)
    (addOutcome : Option AddError) (s : AdminForm) (posts : List PostDoc) :
    AdminForm × List PostDoc :=
  if !ready then
    ({ s with error := "Firebase is not ready. Check your environment variables." }, posts)
  else if !adminUser then
    ({ s with error := "Only the admin can publish posts." }, posts)
  else if jsTrim s.title == "" || jsTrim s.body == "" then
    ({ s with error := "Title and body are required." }, posts)
  else
    let slug := (if slugify s.title == "" then "post" else slugify s.title) ++
      "-" ++ toString now
    let doc : PostDoc :=
      ⟨jsTrim s.title, jsTrim s.body, slug, authEmail.getD "", toTagArray s.tags⟩
    match addOutcome with
    | none =>
      ({ s with
          status := "Post published to Firestore."
          error := ""
          title := ""
          body := ""
          tags := ""
          loading := false }, posts ++ [doc])
    | some e =>
      ({ s with error := publishErrorMessage e, status := "", loading := false }, posts)

/-- C10: `handleSubmit` is atomic on validation failure — when Firebase is not
ready, or the user is not the admin, or the trimmed title or body is empty, no
document is added and the title/body/tags fields (and status) keep their
values while an error message is set; whenever `addDoc` rejects the fields and
collection are also untouched; and the fields are cleared exactly on a
successful add, which appends one document. -/
theorem handleSubmit_atomic (ready adminUser : Bool) (authEmail : Option String)
    (now : Nat) (addOutcome : Option AddError) (s : AdminForm) (posts : List PostDoc) :
    (ready = false ∨ adminUser = false ∨ jsTrim s.title = "" ∨ jsTrim s.body = "" →
      (handleSubmit ready adminUser authEmail now addOutcome s posts).2 = posts ∧
        (handleSubmit ready adminUser authEmail now addOutcome s posts).1.title = s.title ∧
        (handleSubmit ready adminUser authEmail now addOutcome s posts).1.body = s.body ∧
        (handleSubmit ready adminUser authEmail now addOutcome s posts).1.tags = s.tags ∧
        (handleSubmit ready adminUser authEmail now addOutcome s posts).1.status = s.status ∧
        (handleSubmit ready adminUser authEmail now addOutcome s posts).1.error ≠ "") ∧
      (∀ e, addOutcome = some e →
        (handleSubmit ready adminUser authEmail now addOutcome s posts).2 = posts ∧
          (handleSubmit ready adminUser authEmail now addOutcome s posts).1.title = s.title ∧
          (handleSubmit ready adminUser authEmail now addOutcome s posts).1.body = s.body ∧
          (handleSubmit ready adminUser authEmail now addOutcome s posts).1.tags = s.tags) ∧
      (ready = true → adminUser = true → jsTrim s.title ≠ "" → jsTrim s.body ≠ "" →
        addOutcome = none →
        (handleSubmit ready adminUser authEmail now addOutcome s posts).1.title = "" ∧
          (handleSubmit ready adminUser authEmail now addOutcome s posts).1.body = "" ∧
          (handleSubmit ready adminUser authEmail now addOutcome s posts).1.tags = "" ∧
          ∃ doc, (handleSubmit ready adminUser authEmail now addOutcome s posts).2
            = posts ++ [doc]) := by
  refine ⟨?_, ?_, ?_⟩
  · intro hfail
    rcases hfail with h | h | h | h
    · subst h; simp [handleSubmit]
    · subst h
      cases ready <;> simp [handleSubmit]
    · cases hr : ready <;> cases ha : adminUser <;>
        simp [handleSubmit, h]
    · cases hr : ready <;> cases ha : adminUser <;>
        by_cases ht : jsTrim s.title = "" <;>
        simp [handleSubmit, h, ht]
  · intro e he
    subst he
    cases hr : ready <;> cases ha : adminUser <;>
      by_cases ht : jsTrim s.title = "" <;>
      by_cases hb : jsTrim s.body = "" <;>
      simp [handleSubmit, ht, hb]
  · intro hr ha ht hb hadd
    subst hr; subst ha; subst hadd
    have ht' : (jsTrim s.title == "") = false := by simp [ht]
    have hb' : (jsTrim s.body == "") = false := by simp [hb]
    refine ⟨?_, ?_, ?_, ?_⟩ <;> simp [handleSubmit, ht', hb']

/-- Witness for C10: a non-admin attempt keeps the fields and adds nothing;
an `addDoc` rejection keeps the fields; a successful add clears them. -/
theorem handleSubmit_atomic_witness :
    ((handleSubmit true false none 7 none ⟨"T", "B", "x, y", "", "", false⟩ []).2 = [] ∧
        (handleSubmit true false none 7 none ⟨"T", "B", "x, y", "", "", false⟩ []).1.title = "T" ∧
        (handleSubmit true false none 7 none ⟨"T", "B", "x, y", "", "", false⟩ []).1.body = "B" ∧
        (handleSubmit true false none 7 none ⟨"T", "B", "x, y", "", "", false⟩ []).1.tags = "x, y" ∧
        (handleSubmit true false none 7 none ⟨"T", "B", "x, y", "", "", false⟩ []).1.status = "" ∧
        (handleSubmit true false none 7 none ⟨"T", "B", "x, y", "", "", false⟩ []).1.error ≠ "") ∧
      ((handleSubmit true true none 7 none ⟨"T", "B", "x, y", "", "", false⟩ []).1.title = "" ∧
        (handleSubmit true true none 7 none ⟨"T", "B", "x, y", "", "", false⟩ []).1.body = "" ∧
        (handleSubmit true true none 7 none ⟨"T", "B", "x, y", "", "", false⟩ []).1.tags = "" ∧
        ∃ doc, (handleSubmit true true none 7 none ⟨"T", "B", "x, y", "", "", false⟩ []).2
          = [] ++ [doc]) := by
  have h1 := handleSubmit_atomic true false none 7 none
    ⟨"T", "B", "x, y", "", "", false⟩ []
  have h2 := handleSubmit_atomic true true none 7 none
    ⟨"T", "B", "x, y", "", "", false⟩ []
  exact ⟨h1.1 (Or.inr (Or.inl rfl)),
    h2.2.2 rfl rfl (by decide) (by decide) rfl⟩

/-! ## C7: the HTML-to-Markdown Normalizer

Modelled from the spec: the Normalizer's implementation file is not among the
sources at hand (only §4.1 of the specification documents it), so the node
type and the per-element serialization policy below follow the specification's
table verbatim. -/

/-- Modelled from the spec: a parsed rich-text fragment — a tree of elements
(tag, attributes, children) and text nodes. -/
inductive HNode where
  | text (s : String)
  | elem (tag : String) (attrs : List (String × String)) (children : List HNode)

/-- Text-node policy: runs of whitespace collapse to a single space. -/
def collapseWsToSpace (s : String) : String :=
  ⟨collapseRunsAux isJsWs ' ' false s.data⟩

mutual

/-- Modelled from the spec: serialize one node to markdown following the
per-element-type policy table of §4.1 (strong/em/code wrappers when the
content is non-empty, links, line breaks, paragraphs, headings 1-4, lists,
list items, images, pass-through for anything else). -/
def serializeNode : HNode → String
  | .text s => collapseWsToSpace s
  | .elem tag attrs children =>
    let content := serializeNodes children
    if tag == "strong" || tag == "b" then
      (if content == "" then "" else "**" ++ content ++ "**")
    else if tag == "em" || tag == "i" then
      (if content == "" then "" else "*" ++ content ++ "*")
    else if tag == "code" then
      (if content == "" then "" else "`" ++ content ++ "`")
    else if tag == "a" then
      match attrs.lookup "href" with
      | some href => "[" ++ (if content == "" then href else content) ++ "](" ++ href ++ ")"
      | none => content
    else if tag == "br" then "\n"
    else if tag == "p" || tag == "div" then
      (if content == "" then "\n\n" else content ++ "\n\n")
    else if tag == "h1" then "# " ++ content ++ "\n\n"
    else if tag == "h2" then "## " ++ content ++ "\n\n"
    else if tag == "h3" then "### " ++ content ++ "\n\n"
    else if tag == "h4" then "#### " ++ content ++ "\n\n"
    else if tag == "ul" then serializeItems none children ++ "\n"
    else if tag == "ol" then serializeItems (some 1) children ++ "\n"
    else if tag == "li" then "- " ++ content ++ "\n"
    else if tag == "img" then
      match attrs.lookup "src" with
      | some src => "![" ++ ((attrs.lookup "alt").getD "image") ++ "](" ++ src ++ ")"
      | none => ""
    else content
termination_by n => sizeOf n
decreasing_by all_goals (simp_wf <;> omega)

/-- Modelled from the spec: the direct children of an unordered (`ord = none`)
or ordered (`ord = some n`, 1-based) list; each list-item child becomes
marker + content + newline, where the marker is the caller-supplied ordinal
or `"- "`. -/
def serializeItems (ord : Option Nat) : List HNode → String
  | [] => ""
  | .elem tag attrs gchildren :: cs =>
    if tag == "li" then
      (match ord with
        | some n => toString n ++ ". "
        | none => "- ") ++ serializeNodes gchildren ++ "\n" ++
        serializeItems (ord.map (· + 1)) cs
    else serializeNode (.elem tag attrs gchildren) ++ serializeItems ord cs
  | .text s :: cs => serializeNode (.text s) ++ serializeItems ord cs
termination_by l => sizeOf l
decreasing_by all_goals (simp_wf <;> omega)

/-- Depth-first concatenation of the children's serializations. -/
def serializeNodes : List HNode → String
  | [] => ""
  | c :: cs => serializeNode c ++ serializeNodes cs
termination_by l => sizeOf l
decreasing_by all_goals (simp_wf <;> omega)

end


theorem foldl_append_shift (l : List String) :
    ∀ a b : String,
      l.foldl (fun r s => r ++ s) (a ++ b) = a ++ l.foldl (fun r s => r ++ s) b := by
  induction l with
  | nil => intro a b; rfl
  | cons x xs ih =>
    intro a b
    simp only [List.foldl_cons, String.append_assoc, ih]

theorem join_cons (s : String) (l : List String) :
    String.join (s :: l) = s ++ String.join l := by
  show List.foldl (fun r t => r ++ t) ("" ++ s) l
    = s ++ List.foldl (fun r t => r ++ t) "" l
  have h1 : "" ++ s = s ++ "" := by simp
  rw [h1, foldl_append_shift]

/-- The `<ul>` fragment whose direct children are `<li>` items with the given
text contents. -/
def ulOfTexts (texts : List String) : HNode :=
  .elem "ul" [] (texts.map fun t => .elem "li" [] [.text t])

theorem serializeItems_li_texts (texts : List String) :
    serializeItems none (texts.map fun t => .elem "li" [] [.text t])
      = String.join (texts.map fun t => "- " ++ collapseWsToSpace t ++ "\n") := by
  induction texts with
  | nil => simp [serializeItems, String.join]
  | cons t ts ih =>
    rw [List.map_cons, serializeItems]
    simp only [String.append_assoc] at ih
    simp [serializeNodes, serializeNode, join_cons, String.append_assoc, ih]

theorem serializeNode_ul (texts : List String) :
    serializeNode (ulOfTexts texts)
      = String.join (texts.map fun t => "- " ++ collapseWsToSpace t ++ "\n") ++ "\n" := by
  rw [ulOfTexts, serializeNode]
  simp [serializeItems_li_texts]

/-- C7: the Normalizer maps an unordered list whose direct children are list
items to markdown in which each item is rendered as `- content` followed by a
newline, with a trailing blank line after the list; in particular
`<ul><li>one</li><li>two</li></ul>` yields exactly `"- one\n- two\n\n"`. -/
theorem ul_serialization (texts : List String) :
    (serializeNode (ulOfTexts texts)
        = String.join (texts.map fun t => "- " ++ collapseWsToSpace t ++ "\n") ++ "\n") ∧
      serializeNode (ulOfTexts ["one", "two"]) = "- one\n- two\n\n" := by
  refine ⟨serializeNode_ul texts, ?_⟩
  rw [serializeNode_ul ["one", "two"]]
  decide
